import Mathlib

/-!
Verification of the pentops/runner repository: a shallow embedding of the
run-group (rungroup.go, parallel), the CLI flag tokenizer
(cliconf/flags.go, entry.go) and the field resolver (cliconf/parse.go),
with theorems checking the natural-language specification against them.

Go strings are modelled as `List Char` where the code inspects characters
(the tokenizer), and as Lean `String` where values are only compared and
stored (the resolver and the run group).  Go maps are modelled as
association lists with unique keys (insertion replaces, delete filters).
-/

namespace Runner

/-- A Go string, as the tokenizer sees it: a sequence of characters. -/
abbrev GoStr := List Char

/-- `strings.HasPrefix(s, "-")`. -/
def startsWithDash : GoStr → Bool
  | '-' :: _ => true
  | _ => false

/-- `strings.TrimPrefix(s, "-")`: drop one leading dash if present. -/
def trimOneDash : GoStr → GoStr
  | '-' :: rest => rest
  | s => s

/-- `strings.ToLower` over the characters of a Go string. -/
def goToLower (s : GoStr) : GoStr := s.map Char.toLower

/-- `strings.SplitN(s, "=", 2)`: `some (k, v)` when `s = k ++ "=" ++ v` with
`k` the text before the first `'='` and `v` everything after it (verbatim);
`none` when `s` has no `'='` (Go returns a one-element slice). -/
def splitEqFirst : GoStr → Option (GoStr × GoStr)
  | [] => none
  | c :: rest =>
    if c = '=' then some ([], rest)
    else
      match splitEqFirst rest with
      | some (k, v) => some (c :: k, v)
      | none => none

/-- Go map assignment `m[k] = v`: replace the value when the key is present,
append the pair otherwise (Go map keys are unique). -/
def mapInsert {α β : Type} [DecidableEq α] : List (α × β) → α → β → List (α × β)
  | [], k, v => [(k, v)]
  | (k', v') :: rest, k, v =>
    if k' = k then (k, v) :: rest else (k', v') :: mapInsert rest k v

/-- Go map lookup `v, ok := m[k]`: the value for the first matching key. -/
def mapLookup {α β : Type} [DecidableEq α] : List (α × β) → α → Option β
  | [], _ => none
  | (k', v') :: rest, k => if k' = k then some v' else mapLookup rest k

/-- Go `delete(m, k)`: remove the key (all matches; keys are unique). -/
def mapDelete {α β : Type} [DecidableEq α] (m : List (α × β)) (k : α) :
    List (α × β) :=
  m.filter (fun p => p.1 ≠ k)

/-- Result of `cliconf.parseFlags`.  The three Go return values; `flagMap` and
`remaining` are `none` exactly when the function returns Go `nil` for them,
`err` carries the flag name of a "flag has no value" error. -/
structure TokResult where
  flagMap : Option (List (GoStr × GoStr))
  remaining : Option (List GoStr)
  err : Option GoStr
deriving DecidableEq, Repr

/-- The loop of `cliconf.parseFlags` (src/cliconf/flags.go, lines 13–67):
`src` is the argument list still to process and `acc` the flag map built so
far.  Stops at the first non-dash argument; strips up to two dashes; known
boolean flags consume a following token only when it is `true`/`false`
case-insensitively; `--name=value` splits at the first `'='`; a non-boolean
flag with no `'='` form and no next token is a "flag has no value" error
returning `nil, nil, err`. -/
def parseFlagsAux (booleans : List GoStr) :
    List GoStr → List (GoStr × GoStr) → TokResult
  | [], acc => ⟨some acc, some [], none⟩
  | [arg], acc =>
    -- the loop body with `src` empty after consuming `arg`; the
    -- `--name=value` sub-case continues the loop, which then exits at once,
    -- so its result is inlined here
    if ¬ startsWithDash arg then ⟨some acc, some [arg], none⟩
    else
      let name := trimOneDash (trimOneDash arg)
      if name ∈ booleans then ⟨some (mapInsert acc name "true".toList), some [], none⟩
      else
        match splitEqFirst name with
        | some (k, v) => ⟨some (mapInsert acc k v), some [], none⟩
        | none => ⟨none, none, some name⟩
  | arg :: next :: rest', acc =>
    if ¬ startsWithDash arg then ⟨some acc, some (arg :: next :: rest'), none⟩
    else
      let name := trimOneDash (trimOneDash arg)
      if name ∈ booleans then
        if startsWithDash next then
          parseFlagsAux booleans (next :: rest') (mapInsert acc name "true".toList)
        else
          let lower := goToLower next
          if lower = "true".toList ∨ lower = "false".toList then
            parseFlagsAux booleans rest' (mapInsert acc name lower)
          else
            parseFlagsAux booleans (next :: rest') acc
      else
        match splitEqFirst name with
        | some (k, v) => parseFlagsAux booleans (next :: rest') (mapInsert acc k v)
        | none => parseFlagsAux booleans rest' (mapInsert acc name next)

/-- `cliconf.parseFlags(src, booleans)` (src/cliconf/flags.go). -/
def parseFlags (src : List GoStr) (booleans : List GoStr) : TokResult :=
  parseFlagsAux booleans src []

/-- Result of the `runner` package's `parseFlags` (src/entry.go): it can also
panic (index out of range) because its boolean branch reads `src[0]`
unconditionally. -/
inductive EntryTok
  | ok (flagMap : List (GoStr × GoStr)) (remaining : List GoStr)
  | flagErr (name : GoStr)
  | panicked
deriving DecidableEq, Repr

/-- The loop of the `runner` package's `parseFlags` (src/entry.go, lines
62–111).  Identical to the cliconf variant except in the known-boolean
branch: the `len(src) == 0 || HasPrefix(src[0], "-")` case assigns
`flagMap[arg] = "true"` but does not `continue`, so execution falls through
to `lower := strings.ToLower(src[0])`, which panics when `src` is empty. -/
def entryParseFlagsAux (booleans : List GoStr) :
    List GoStr → List (GoStr × GoStr) → EntryTok
  | [], acc => .ok acc []
  | [arg], acc =>
    if ¬ startsWithDash arg then .ok acc [arg]
    else
      let name := trimOneDash (trimOneDash arg)
      if name ∈ booleans then .panicked
      else
        match splitEqFirst name with
        | some (k, v) => .ok (mapInsert acc k v) []
        | none => .flagErr name
  | arg :: next :: rest', acc =>
    if ¬ startsWithDash arg then .ok acc (arg :: next :: rest')
    else
      let name := trimOneDash (trimOneDash arg)
      if name ∈ booleans then
        let acc' := if startsWithDash next then mapInsert acc name "true".toList
                    else acc
        let lower := goToLower next
        if lower = "true".toList ∨ lower = "false".toList then
          entryParseFlagsAux booleans rest' (mapInsert acc' name lower)
        else
          entryParseFlagsAux booleans (next :: rest') acc'
      else
        match splitEqFirst name with
        | some (k, v) => entryParseFlagsAux booleans (next :: rest') (mapInsert acc k v)
        | none => entryParseFlagsAux booleans rest' (mapInsert acc name next)

/-- The `runner` package's `parseFlags(src, booleans)` (src/entry.go). -/
def entryParseFlags (src : List GoStr) (booleans : List GoStr) : EntryTok :=
  entryParseFlagsAux booleans src []

/-- The repo's own tokenizer round-trip test case (flags_test.go,
"booleans"): a check that the embedding behaves as the Go tests record. -/
theorem parseFlags_matches_flags_test :
    parseFlags ["--foo".toList, "foo".toList, "--bar=bar".toList,
        "--b1".toList, "--b2=true".toList, "--b3".toList, "true".toList,
        "f1".toList, "f2".toList]
      ["b1".toList, "b2".toList, "b3".toList]
      = ⟨some [("foo".toList, "foo".toList), ("bar".toList, "bar".toList),
            ("b1".toList, "true".toList), ("b2".toList, "true".toList),
            ("b3".toList, "true".toList)],
          some ["f1".toList, "f2".toList], none⟩ := by decide

/-! ## Run group (src/rungroup.go and the parallel package)

A task's return value is an `Option GoError` (`none` for a nil error).
`errors.Is(err, context.Canceled)` is modelled by the Boolean field
`wrapsCanceled`.  Concurrency is modelled by quantifying over the order in
which the finished tasks reach the shared first-error record (the
lock-acquisition order): a run of the group is any list of task return
values in that order. -/

/-- A non-nil Go error as the run group sees it: an identity and whether its
chain contains `context.Canceled`. -/
structure GoError where
  code : Nat
  wrapsCanceled : Bool
deriving DecidableEq, Repr

/-- The closure body of `Group.startRunner` (src/rungroup.go, lines 110–124):
the value the wrapped runner reports to the error group.  A nil error and an
error wrapping `context.Canceled` both report nil; any other error is
reported as is. -/
def runnerResult : Option GoError → Option GoError
  | none => none
  | some e => if e.wrapsCanceled then none else some e

/-- Log severity levels of the logger collaborator. -/
inductive LogLevel
  | debug
  | info
  | error
deriving DecidableEq, Repr

def LogLineRunnerExited : String := "Runner exited"
def LogLineRunnerExitedWithError : String := "Runner exited with error"
def LogLineRunnerExitedWithContextCanceledError : String :=
  "Runner exited with context canceled"

/-- The log line emitted by the `Group.startRunner` closure when the runner
function returns (src/rungroup.go, lines 114–123). -/
def runnerExitLog : Option GoError → LogLevel × String
  | none => (.info, LogLineRunnerExited)
  | some e =>
    if e.wrapsCanceled then (.debug, LogLineRunnerExitedWithContextCanceledError)
    else (.error, LogLineRunnerExitedWithError)

/-- The mutex-guarded first-error record (`errgroup`'s once-guarded slot;
same shape as `parallel.Group.handleErr`, src/unnamed/part_000): a reported
error is stored only when the slot is still empty. -/
def recordFirst (slot : Option GoError) (reported : Option GoError) :
    Option GoError :=
  match slot with
  | some _ => slot
  | none => reported

/-- `errgroup.Wait` as seen by `Group.Wait`: fold the once-guarded record
over the reported values in lock-acquisition order and return the slot. -/
def errGroupWait (reported : List (Option GoError)) : Option GoError :=
  reported.foldl recordFirst none

/-- `Group.Wait`'s returned error for a run whose task return values, in
lock-acquisition order, are `outs` (each wrapped by the `startRunner`
closure before reaching the record). -/
def groupWait (outs : List (Option GoError)) : Option GoError :=
  errGroupWait (outs.map runnerResult)

/-- The genuine failures of a run, in lock-acquisition order: the non-nil
task errors that do not wrap `context.Canceled`. -/
def realErrors (outs : List (Option GoError)) : List GoError :=
  outs.filterMap runnerResult

/-- The lifecycle flags of a `Group` (src/rungroup.go, lines 31–32). -/
structure GroupState where
  running : Bool
  isWaiting : Bool
deriving DecidableEq, Repr

/-- What a call to `Group.Wait` produces (src/rungroup.go, lines 182–218):
either the guard error, or the error group's first error once every runner
has returned. -/
inductive WaitOutcome
  | errorMsg (msg : String)
  | done (firstError : Option GoError)
deriving DecidableEq, Repr

/-- `Group.Wait` (src/rungroup.go, lines 182–218) as a state transition:
under the control mutex, an already-waiting group returns the
"group is already waiting" error at once; otherwise the group is marked
waiting and (after all runners return) the first recorded error is the
result. -/
def waitCall (st : GroupState) (outs : List (Option GoError)) :
    GroupState × WaitOutcome :=
  if st.isWaiting then (st, .errorMsg "group is already waiting")
  else ({ st with isWaiting := true }, .done (groupWait outs))

/-- What a call to `Group.Add` produces. -/
inductive AddOutcome
  | panicked (msg : String)
  | added (startedImmediately : Bool)
deriving DecidableEq, Repr

/-- `Group.Add` (src/rungroup.go, lines 91–105) as a state transition on the
registered runner list: under the control mutex, a waiting group panics with
"group is already waiting" and registers nothing; otherwise the runner is
appended (and started immediately when the group is already running — the
start itself is a concurrency side effect not modelled further). -/
def addCall (st : GroupState) (runners : List String) (name : String) :
    AddOutcome × List String :=
  if st.isWaiting then (.panicked "group is already waiting", runners)
  else (.added st.running, runners ++ [name])

/-! ## Field resolver (src/cliconf/parse.go, both variants)

The resolver never splits strings, so here Go strings are plain Lean
`String`s.  The environment is an injected lookup function.  Type coercion
(`setFieldValue` / `SetFromString`) succeeds or fails per field; it is
passed in as a function from field and raw string to an optional error
message, since the claims below are about value selection and error
aggregation, not the coercion table. -/

/-- The binding metadata of one struct field, as produced by `parseField` /
`structField` from the struct tags (src/cliconf/reflect.go); `fieldName` is
the reflected field name used in error reports. -/
structure ParsedTag where
  fieldName : String
  isBool : Bool
  envName : String
  flagName : String
  remaining : Bool
  optional : Bool
  defaultVal : Option String
deriving DecidableEq, Repr

/-- One entry of the aggregate `ParamErrors` value. -/
structure ParamErrorL where
  flag : String
  env : String
  fieldName : String
  msg : String
deriving DecidableEq, Repr

/-- The flag map the resolver consumes. -/
abbrev FlagMapS := List (String × String)

/-- The flag-map-independent tail of `cmdData.popValue`, first variant
(src/cliconf/parse.go, lines 79–100): the branches taken when the flag map
holds no value for the field — environment, boolean, default, optional,
required, in that order.  None of these branches touches the flag map. -/
def popValueTail (getEnv : String → String) (tag : ParsedTag) :
    Except String (Option String) :=
  if tag.envName ≠ "" ∧ getEnv tag.envName ≠ "" then
    .ok (some (getEnv tag.envName))
  else if tag.isBool then
    -- leave it false
    .ok none
  else
    match tag.defaultVal with
    | some d =>
      -- if default is empty, that still works, e.g. empty string
      .ok (some d)
    | none =>
      if tag.optional then .ok none
      else .error "required"

/-- `cmdData.popValue`, first variant (src/cliconf/parse.go, lines 70–101):
returns the updated flag map (the matched flag entry is deleted; every other
branch leaves it as is) and either the selected value (`.ok (some v)`),
deliberately-no-value (`.ok none`), or the "required" error. -/
def popValue (getEnv : String → String) (fm : FlagMapS) (tag : ParsedTag) :
    FlagMapS × Except String (Option String) :=
  match (if tag.flagName = "" then none else mapLookup fm tag.flagName) with
  | some val => (mapDelete fm tag.flagName, .ok (some val))
  | none => (fm, popValueTail getEnv tag)

/-- The flag-map-independent tail of `cmdData.popValue`, second variant
(src/cliconf/parse.go, lines 416–433): environment, then boolean (resolved
to the string `"false"`), then default; `none` when nothing applies. -/
def popValue2Tail (getEnv : String → String) (tag : ParsedTag) :
    Option String :=
  if tag.envName ≠ "" ∧ getEnv tag.envName ≠ "" then
    some (getEnv tag.envName)
  else if tag.isBool then
    some "false"
  else
    match tag.defaultVal with
    | some d => some d
    | none => none

/-- `cmdData.popValue`, second variant (src/cliconf/parse.go, lines
407–434): never errors; a boolean field with no flag and no env value
resolves to the string `"false"`, and a missing non-optional value returns
`none`, which the caller turns into the "required" error. -/
def popValue2 (getEnv : String → String) (fm : FlagMapS) (tag : ParsedTag) :
    FlagMapS × Option String :=
  match (if tag.flagName = "" then none else mapLookup fm tag.flagName) with
  | some val => (mapDelete fm tag.flagName, some val)
  | none => (fm, popValue2Tail getEnv tag)

/-- How one field ends up after resolution: set to a raw string value, left
at its zero value, or a recorded "required" error. -/
inductive FieldOutcome
  | value (s : String)
  | leftUnset
  | requiredErr
deriving DecidableEq, Repr

/-- The second variant's per-field outcome: `popValue2` followed by the
caller's optional/required check (src/cliconf/parse.go, lines 360–377). -/
def resolve2Outcome (getEnv : String → String) (fm : FlagMapS)
    (tag : ParsedTag) : FieldOutcome :=
  match (popValue2 getEnv fm tag).2 with
  | some v => .value v
  | none => if tag.optional then .leftUnset else .requiredErr

/-- `SetFromString` on a `*bool` target (src/cliconf/flags.go, lines
427–430): true iff the value lowercased starts with `"t"`. -/
def goParseBool (s : String) : Bool :=
  (s.toList.map Char.toLower).take 1 = ['t']

/-- The mutable parse state of the first variant (`cmdData`,
src/cliconf/parse.go, lines 64–68). -/
structure CmdData where
  flagMap : FlagMapS
  remaining : List String
  usedRemaining : Bool
deriving DecidableEq, Repr

/-- `cmdData.runField`, first variant (src/cliconf/parse.go, lines 103–160),
with coercion abstracted as `setErr` (the error, if any, of
`setFieldValue`-style assignment): returns the updated state, an error
message when the field fails, and the raw string applied to the field when
one is.  The `,remaining` branch assigns the remaining args to the field
(the slice type checks of the source are reflection details elided here). -/
def runField (getEnv : String → String)
    (setErr : ParsedTag → String → Option String)
    (cd : CmdData) (tag : ParsedTag) :
    CmdData × Option String × Option String :=
  if tag.remaining then
    if cd.usedRemaining then
      (cd, some "only one field can be tagged with ,remaining", none)
    else ({ cd with usedRemaining := true }, none, none)
  else
    match popValue getEnv cd.flagMap tag with
    | (fm', .error e) => ({ cd with flagMap := fm' }, some e, none)
    | (fm', .ok none) => ({ cd with flagMap := fm' }, none, none)
    | (fm', .ok (some v)) =>
      match setErr tag v with
      | some e => ({ cd with flagMap := fm' }, some e, none)
      | none => ({ cd with flagMap := fm' }, none, some v)

/-- `cmdData.runStruct`, first variant (src/cliconf/parse.go, lines
162–203), over the flattened field list: runs every field in order, never
short-circuiting, collecting one `ParamError` per failing field. -/
def runStruct (getEnv : String → String)
    (setErr : ParsedTag → String → Option String) :
    CmdData → List ParsedTag → CmdData × List ParamErrorL
  | cd, [] => (cd, [])
  | cd, tag :: tags =>
    let (cd', errOpt, _) := runField getEnv setErr cd tag
    let (cd'', errs) := runStruct getEnv setErr cd' tags
    match errOpt with
    | some e =>
      (cd'', ⟨tag.flagName, tag.envName, tag.fieldName, e⟩ :: errs)
    | none => (cd'', errs)

/-- The raw string values applied to the fields, in field order, with `none`
for fields left unset or failing — records that every field is resolved
independently of the others' errors. -/
def runStructValues (getEnv : String → String)
    (setErr : ParsedTag → String → Option String) :
    CmdData → List ParsedTag → List (Option String)
  | _, [] => []
  | cd, tag :: tags =>
    let (cd', _, vOpt) := runField getEnv setErr cd tag
    vOpt :: runStructValues getEnv setErr cd' tags

/-- The `ParamError` entry `ParseCombined` appends for a flag-map entry left
unclaimed after resolution (src/cliconf/parse.go, lines 52–57). -/
def unknownFlagErr (k : String) : ParamErrorL :=
  ⟨k, "", "", "unknown flag"⟩

/-- The aggregate error list of `ParseCombined`, first variant
(src/cliconf/parse.go, lines 47–61): the per-field errors of `runStruct`
followed by one "unknown flag" error per entry still in the flag map.
(Go iterates the map in unspecified order; the model fixes insertion
order.) -/
def parseCombinedErrs (getEnv : String → String)
    (setErr : ParsedTag → String → Option String)
    (tags : List ParsedTag) (fm : FlagMapS) (rem : List String) :
    List ParamErrorL :=
  let (cd', errs) := runStruct getEnv setErr ⟨fm, rem, false⟩ tags
  errs ++ cd'.flagMap.map (fun p => unknownFlagErr p.1)

/-- The positional-argument distribution of `ParseCombined`, second variant
(src/cliconf/parse.go, lines 330–358).  `claimed` is the set of declared
`argN` indices, `hasRemaining` whether a `,remaining` field is declared, and
`setErr` the coercion outcome for an `argN` assignment.  Returns the
assignments made to `argN` fields, the value assigned to the remaining-args
field (if it is assigned at all), and the collected error messages.  Note
that the source sets the remaining field to `remainingArgs` — the whole
tokenizer remainder — not to `thenRemainingArgs`, the unclaimed ones. -/
def distributeArgs (setErr : Nat → String → Option String)
    (claimed : List Nat) (hasRemaining : Bool) (remainingArgs : List String) :
    List (Nat × String) × Option (List String) × List String :=
  let step := remainingArgs.enum.foldl
    (fun (acc : List (Nat × String) × List String × List String) p =>
      let (assigns, thenRem, errs) := acc
      if p.1 ∈ claimed then
        match setErr p.1 p.2 with
        | some e => (assigns, thenRem, errs ++ [e])
        | none => (assigns ++ [p], thenRem, errs)
      else (assigns, thenRem ++ [p.2], errs))
    ([], [], [])
  let (assigns, thenRem, errs) := step
  if thenRem.length > 0 then
    if hasRemaining then (assigns, some remainingArgs, errs)
    else if remainingArgs.length > 0 then
      (assigns, none, errs ++ ["too many remaining args"])
    else (assigns, none, errs)
  else (assigns, none, errs)

/-- The arguments not claimed by any `argN` index binding, in order — the
source's `thenRemainingArgs` (src/cliconf/parse.go, lines 331–345). -/
def unclaimedArgs (claimed : List Nat) (remainingArgs : List String) :
    List String :=
  (remainingArgs.enum.filter (fun p => p.1 ∉ claimed)).map Prod.snd

/-! ## Lemmas about the run group -/

lemma foldl_recordFirst_some (l : List (Option GoError)) (e : GoError) :
    l.foldl recordFirst (some e) = some e := by
  induction l with
  | nil => rfl
  | cons x l ih => simpa [recordFirst] using ih

lemma errGroupWait_eq_head?_filterMap (l : List (Option GoError)) :
    errGroupWait l = (l.filterMap id).head? := by
  induction l with
  | nil => rfl
  | cons x l ih =>
    cases x with
    | none => simpa [errGroupWait, List.foldl_cons, recordFirst] using ih
    | some e =>
      simp [errGroupWait, List.foldl_cons, recordFirst,
        foldl_recordFirst_some]

lemma groupWait_eq_head?_realErrors (outs : List (Option GoError)) :
    groupWait outs = (realErrors outs).head? := by
  rw [groupWait, errGroupWait_eq_head?_filterMap, realErrors,
    List.filterMap_map]
  rfl

lemma runnerResult_eq_some {o : Option GoError} {e : GoError}
    (h : runnerResult o = some e) : o = some e ∧ e.wrapsCanceled = false := by
  cases o with
  | none => simp [runnerResult] at h
  | some e' =>
    by_cases hc : e'.wrapsCanceled
    · simp [runnerResult, hc] at h
    · simp [runnerResult, hc] at h
      simp [h] at hc ⊢
      simpa using hc

lemma errGroupWait_none (l : List (Option GoError))
    (h : ∀ x ∈ l, x = none) : errGroupWait l = none := by
  rw [errGroupWait_eq_head?_filterMap]
  have : l.filterMap id = [] := by
    rw [List.filterMap_eq_nil_iff]
    intro x hx
    simp [h x hx]
  simp [this]

/-- C1.  For every run of the group (every lock-acquisition order `outs` of
the task return values), `Wait` returns the first non-nil,
non-context-cancellation error in that order (the head of the genuine
failures), and it returns `nil` when every task returned `nil`.  The
once-guarded record keeps exactly one error — the first to reach it — and a
returned error is always one actually returned by some task, never nil and
never fabricated. -/
theorem wait_returns_first_real_error (outs : List (Option GoError)) :
    groupWait outs = (realErrors outs).head? ∧
    (∀ e, groupWait outs = some e → some e ∈ outs ∧ e.wrapsCanceled = false) ∧
    ((∀ o ∈ outs, o = none) → groupWait outs = none) := by
  refine ⟨groupWait_eq_head?_realErrors outs, ?_, ?_⟩
  · intro e he
    rw [groupWait_eq_head?_realErrors] at he
    have hmem : e ∈ realErrors outs := by
      cases hr : realErrors outs with
      | nil => simp [hr] at he
      | cons a l => simp [hr] at he; simp [hr, he]
    rw [realErrors, List.mem_filterMap] at hmem
    obtain ⟨o, ho, hoe⟩ := hmem
    obtain ⟨h1, h2⟩ := runnerResult_eq_some hoe
    exact ⟨h1 ▸ ho, h2⟩
  · intro h
    apply errGroupWait_none
    intro x hx
    rw [List.mem_map] at hx
    obtain ⟨o, ho, rfl⟩ := hx
    simp [h o ho, runnerResult]

/-- Witness for C1 at a concrete run: task returns are nil, a canceled
error, then two genuine failures; `Wait` returns the first genuine failure,
which is among the task returns and does not wrap cancellation. -/
theorem wait_returns_first_real_error_witness :
    groupWait [none, some ⟨1, true⟩, some ⟨2, false⟩, some ⟨3, false⟩]
        = some ⟨2, false⟩ ∧
    some (⟨2, false⟩ : GoError)
        ∈ [none, some ⟨1, true⟩, some ⟨2, false⟩, some ⟨3, false⟩] ∧
    (⟨2, false⟩ : GoError).wrapsCanceled = false := by
  have h := (wait_returns_first_real_error
    [none, some ⟨1, true⟩, some ⟨2, false⟩, some ⟨3, false⟩]).2.1
    ⟨2, false⟩ (by decide)
  exact ⟨by decide, h.1, h.2⟩

/-- C5.  A task whose error wraps `context.Canceled` is treated as a clean
stop: the `startRunner` closure reports nil to the error group (so the error
is never recorded as the group result), logs the exit at debug — not error —
severity, and `Wait` still returns nil when every other task returned nil or
a cancellation error. -/
theorem canceled_task_is_clean_stop (e : GoError) (he : e.wrapsCanceled = true)
    (outs : List (Option GoError))
    (hothers : ∀ o ∈ outs, runnerResult o = none) :
    runnerResult (some e) = none ∧
    runnerExitLog (some e)
      = (LogLevel.debug, LogLineRunnerExitedWithContextCanceledError) ∧
    (runnerExitLog (some e)).1 ≠ LogLevel.error ∧
    groupWait (some e :: outs) = none := by
  refine ⟨by simp [runnerResult, he], by simp [runnerExitLog, he],
    by simp [runnerExitLog, he], ?_⟩
  apply errGroupWait_none
  intro x hx
  simp only [List.map_cons, List.mem_cons] at hx
  rcases hx with rfl | hx
  · simp [runnerResult, he]
  · rw [List.mem_map] at hx
    obtain ⟨o, ho, rfl⟩ := hx
    exact hothers o ho

/-- Witness for C5: a concrete canceled task next to a nil task and another
canceled task. -/
theorem canceled_task_is_clean_stop_witness :
    runnerResult (some ⟨7, true⟩) = none ∧
    runnerExitLog (some ⟨7, true⟩)
      = (LogLevel.debug, LogLineRunnerExitedWithContextCanceledError) ∧
    (runnerExitLog (some ⟨7, true⟩)).1 ≠ LogLevel.error ∧
    groupWait [some ⟨7, true⟩, none, some ⟨8, true⟩] = none :=
  canceled_task_is_clean_stop ⟨7, true⟩ (by decide) [none, some ⟨8, true⟩]
    (by decide)

/-- C7.  On a group not yet waiting, `Wait` marks the group waiting and
returns the recorded first error; a second call then returns the
"group is already waiting" error immediately (it neither waits again nor
panics). -/
theorem wait_twice_already_waiting (st : GroupState)
    (h : st.isWaiting = false) (outs outs' : List (Option GoError)) :
    (waitCall st outs).2 = .done (groupWait outs) ∧
    ((waitCall st outs).1).isWaiting = true ∧
    (waitCall (waitCall st outs).1 outs').2
      = .errorMsg "group is already waiting" := by
  simp [waitCall, h]

/-- Witness for C7 at a concrete state and run. -/
theorem wait_twice_already_waiting_witness :
    (waitCall ⟨true, false⟩ []).2 = .done none ∧
    ((waitCall ⟨true, false⟩ []).1).isWaiting = true ∧
    (waitCall (waitCall ⟨true, false⟩ []).1 [some ⟨1, false⟩]).2
      = .errorMsg "group is already waiting" :=
  wait_twice_already_waiting ⟨true, false⟩ rfl [] [some ⟨1, false⟩]

/-- C8.  `Add` on a group that has transitioned to waiting never silently
succeeds: it panics with "group is already waiting" and registers no
runner. -/
theorem add_after_wait_panics (st : GroupState) (h : st.isWaiting = true)
    (runners : List String) (name : String) :
    addCall st runners name = (.panicked "group is already waiting", runners) ∧
    ∀ b, (addCall st runners name).1 ≠ .added b := by
  simp [addCall, h]

/-- Witness for C8 at a concrete waiting state. -/
theorem add_after_wait_panics_witness :
    addCall ⟨true, true⟩ ["t1"] "t2"
      = (.panicked "group is already waiting", ["t1"]) ∧
    ∀ b, (addCall ⟨true, true⟩ ["t1"] "t2").1 ≠ .added b :=
  add_after_wait_panics ⟨true, true⟩ rfl ["t1"] "t2"

/-! ## Lemmas and theorems about the tokenizer -/

lemma splitEqFirst_append (k v : GoStr) (hk : '=' ∉ k) :
    splitEqFirst (k ++ '=' :: v) = some (k, v) := by
  induction k with
  | nil => simp [splitEqFirst]
  | cons c k ih =>
    rw [List.mem_cons, not_or] at hk
    have hc : ¬ c = '=' := fun hh => hk.1 hh.symm
    simp only [List.cons_append, splitEqFirst, if_neg hc, List.append_eq,
      ih hk.2]

/-- C10.  A `--name=value` token (name free of `'='`, not a known boolean)
is split at the first `'='` only: `name` maps to the entire text after that
first `'='`, verbatim, so the value may itself contain `'='`. -/
theorem eq_token_splits_at_first_eq (booleans : List GoStr) (k v : GoStr)
    (rest : List GoStr) (acc : List (GoStr × GoStr))
    (hk : '=' ∉ k) (hb : (k ++ '=' :: v) ∉ booleans) :
    parseFlagsAux booleans (('-' :: '-' :: (k ++ '=' :: v)) :: rest) acc
      = parseFlagsAux booleans rest (mapInsert acc k v) := by
  cases rest with
  | nil =>
    simp [parseFlagsAux, startsWithDash, trimOneDash, hb,
      splitEqFirst_append k v hk]
  | cons next rest' =>
    simp [parseFlagsAux, startsWithDash, trimOneDash, hb,
      splitEqFirst_append k v hk]

/-- Witness for C10: the value `b=c` of `--bar=b=c` keeps its own `'='`. -/
theorem eq_token_splits_at_first_eq_witness :
    parseFlagsAux [] ["--bar=b=c".toList] []
      = parseFlagsAux [] [] (mapInsert [] "bar".toList "b=c".toList) ∧
    parseFlags ["--bar=b=c".toList] []
      = ⟨some [("bar".toList, "b=c".toList)], some [], none⟩ := by
  constructor
  · exact eq_token_splits_at_first_eq [] "bar".toList "b=c".toList [] []
      (by decide) (by decide)
  · decide

/-- C3.  Boolean flag handling diverges between the two tokenizer variants:
on `["--b1"]` with `b1` boolean, the cliconf tokenizer returns
`{b1: "true"}` with nothing remaining, as the specification states, but the
`runner` package's variant (src/entry.go) reads `src[0]` of the
already-empty token list and panics with an index-out-of-range runtime
error.  The remaining conjuncts check the cliconf variant's next-token
rules: a dash-led next token is not consumed, `true`/`false`
(case-insensitively) is consumed, and any other next token is left
untouched (not consumed, not an error, flag not set). -/
theorem bool_flag_at_end_entry_variant_panics :
    entryParseFlags ["--b1".toList] ["b1".toList] = .panicked ∧
    parseFlags ["--b1".toList] ["b1".toList]
      = ⟨some [("b1".toList, "true".toList)], some [], none⟩ ∧
    parseFlags ["--b1".toList, "--x=1".toList] ["b1".toList]
      = ⟨some [("b1".toList, "true".toList), ("x".toList, "1".toList)],
          some [], none⟩ ∧
    parseFlags ["--b1".toList, "True".toList] ["b1".toList]
      = ⟨some [("b1".toList, "true".toList)], some [], none⟩ ∧
    parseFlags ["--b1".toList, "foo".toList] ["b1".toList]
      = ⟨some [], some ["foo".toList], none⟩ := by decide

/-- C9.  Whenever the cliconf tokenizer fails (a non-boolean flag token is
last, with no `=` form, so it has no value), it returns the Go nil flag map
and nil remaining list alongside the error — never a partial flag map or
partial remainder. -/
theorem tokenizer_error_returns_nil_results (booleans : List GoStr)
    (src : List GoStr) (acc : List (GoStr × GoStr))
    (h : (parseFlagsAux booleans src acc).err.isSome = true) :
    (parseFlagsAux booleans src acc).flagMap = none ∧
    (parseFlagsAux booleans src acc).remaining = none := by
  induction src, acc using parseFlagsAux.induct booleans with
  | case1 acc => simp [parseFlagsAux] at h
  | case2 arg acc harg => simp [parseFlagsAux, harg] at h
  | case3 arg acc harg name hbool =>
    simp [parseFlagsAux, harg, name, hbool] at h
  | case4 arg acc harg name hbool k v hsplit =>
    simp [parseFlagsAux, harg, name, hbool, hsplit] at h
  | case5 arg acc harg name hbool hsplit =>
    simp [parseFlagsAux, harg, name, hbool, hsplit]
  | case6 arg next rest' acc harg =>
    simp [parseFlagsAux, harg] at h
  | case7 arg next rest' acc harg name hbool hnext ih =>
    rw [parseFlagsAux] at h ⊢
    simp only [harg, Bool.not_true, Bool.false_eq_true, if_false, hbool,
      if_true, hnext] at h ⊢
    exact ih h
  | case8 arg next rest' acc harg name hbool hnext lower hlow ih =>
    rw [parseFlagsAux] at h ⊢
    simp only [harg, Bool.not_true, Bool.false_eq_true, if_false, hbool,
      if_true, hnext, hlow] at h ⊢
    exact ih h
  | case9 arg next rest' acc harg name hbool hnext lower hlow ih =>
    rw [parseFlagsAux] at h ⊢
    simp only [harg, Bool.not_true, Bool.false_eq_true, if_false, hbool,
      if_true, hnext, hlow] at h ⊢
    exact ih h
  | case10 arg next rest' acc harg name hbool k v hsplit ih =>
    rw [parseFlagsAux] at h ⊢
    simp only [harg, Bool.not_true, Bool.false_eq_true, if_false, hbool,
      hsplit] at h ⊢
    exact ih h
  | case11 arg next rest' acc harg name hbool hsplit ih =>
    rw [parseFlagsAux] at h ⊢
    simp only [harg, Bool.not_true, Bool.false_eq_true, if_false, hbool,
      hsplit] at h ⊢
    exact ih h

/-- Witness for C9: `["--x"]` with no booleans errors with a nil flag map
and nil remainder. -/
theorem tokenizer_error_returns_nil_results_witness :
    ((parseFlagsAux [] ["--x".toList] []).err.isSome = true) ∧
    (parseFlagsAux [] ["--x".toList] []).flagMap = none ∧
    (parseFlagsAux [] ["--x".toList] []).remaining = none :=
  ⟨by decide, tokenizer_error_returns_nil_results [] ["--x".toList] []
    (by decide)⟩

/-! ## Theorems about the field resolver -/

lemma flagSel_none (fm : FlagMapS) (tag : ParsedTag)
    (h : tag.flagName = "" ∨ mapLookup fm tag.flagName = none) :
    (if tag.flagName = "" then none else mapLookup fm tag.flagName)
      = (none : Option String) := by
  rcases h with h | h
  · simp [h]
  · by_cases hf : tag.flagName = "" <;> simp [hf, h]

lemma envSel_false (getEnv : String → String) (tag : ParsedTag)
    (h : tag.envName = "" ∨ getEnv tag.envName = "") :
    ¬(tag.envName ≠ "" ∧ getEnv tag.envName ≠ "") := by
  tauto

/-- C2.  Per-field resolution precedence, in both `popValue` variants: an
explicit flag value wins (and is drained from the flag map); otherwise a
non-empty environment value; otherwise a boolean field is left false (the
second variant resolves it to the string `"false"`, which coerces to
`false`); otherwise a declared default — even the empty string — counts as
present; otherwise an optional field is left unset; otherwise the field's
"required" error is recorded. -/
theorem field_resolution_precedence (getEnv : String → String)
    (fm : FlagMapS) (tag : ParsedTag) :
    (∀ v, tag.flagName ≠ "" → mapLookup fm tag.flagName = some v →
      popValue getEnv fm tag = (mapDelete fm tag.flagName, .ok (some v)) ∧
      popValue2 getEnv fm tag = (mapDelete fm tag.flagName, some v)) ∧
    ((tag.flagName = "" ∨ mapLookup fm tag.flagName = none) →
      tag.envName ≠ "" → getEnv tag.envName ≠ "" →
      popValue getEnv fm tag = (fm, .ok (some (getEnv tag.envName))) ∧
      resolve2Outcome getEnv fm tag = .value (getEnv tag.envName)) ∧
    ((tag.flagName = "" ∨ mapLookup fm tag.flagName = none) →
      (tag.envName = "" ∨ getEnv tag.envName = "") → tag.isBool = true →
      popValue getEnv fm tag = (fm, .ok none) ∧
      resolve2Outcome getEnv fm tag = .value "false" ∧
      goParseBool "false" = false) ∧
    ((tag.flagName = "" ∨ mapLookup fm tag.flagName = none) →
      (tag.envName = "" ∨ getEnv tag.envName = "") → tag.isBool = false →
      ∀ d, tag.defaultVal = some d →
      popValue getEnv fm tag = (fm, .ok (some d)) ∧
      resolve2Outcome getEnv fm tag = .value d) ∧
    ((tag.flagName = "" ∨ mapLookup fm tag.flagName = none) →
      (tag.envName = "" ∨ getEnv tag.envName = "") → tag.isBool = false →
      tag.defaultVal = none → tag.optional = true →
      popValue getEnv fm tag = (fm, .ok none) ∧
      resolve2Outcome getEnv fm tag = .leftUnset) ∧
    ((tag.flagName = "" ∨ mapLookup fm tag.flagName = none) →
      (tag.envName = "" ∨ getEnv tag.envName = "") → tag.isBool = false →
      tag.defaultVal = none → tag.optional = false →
      popValue getEnv fm tag = (fm, .error "required") ∧
      resolve2Outcome getEnv fm tag = .requiredErr) := by
  refine ⟨?_, ?_, ?_, ?_, ?_, ?_⟩
  · intro v hf hl
    rw [popValue, popValue2, if_neg hf, hl]
    exact ⟨rfl, rfl⟩
  · intro hnf he hev
    rw [popValue, resolve2Outcome, popValue2, flagSel_none fm tag hnf]
    simp [popValueTail, popValue2Tail, he, hev]
  · intro hnf hne hb
    rw [popValue, resolve2Outcome, popValue2, flagSel_none fm tag hnf]
    simp [popValueTail, popValue2Tail, envSel_false getEnv tag hne, hb,
      goParseBool]
  · intro hnf hne hb d hd
    rw [popValue, resolve2Outcome, popValue2, flagSel_none fm tag hnf]
    simp [popValueTail, popValue2Tail, envSel_false getEnv tag hne, hb, hd]
  · intro hnf hne hb hd ho
    rw [popValue, resolve2Outcome, popValue2, flagSel_none fm tag hnf]
    simp [popValueTail, popValue2Tail, envSel_false getEnv tag hne, hb, hd,
      ho]
  · intro hnf hne hb hd ho
    rw [popValue, resolve2Outcome, popValue2, flagSel_none fm tag hnf]
    simp [popValueTail, popValue2Tail, envSel_false getEnv tag hne, hb, hd,
      ho]

/-- Witness for C2, exercising the flag-beats-env clause and the
empty-string-default clause at concrete inputs. -/
theorem field_resolution_precedence_witness :
    popValue (fun _ => "envval") [("f", "flagval")]
        ⟨"Foo", false, "FOO", "f", false, false, none⟩
      = ([], .ok (some "flagval")) ∧
    popValue (fun _ => "") []
        ⟨"Bar", false, "BAR", "bar", false, false, some ""⟩
      = ([], .ok (some "")) ∧
    resolve2Outcome (fun _ => "") []
        ⟨"Bar", false, "BAR", "bar", false, false, some ""⟩
      = .value "" := by
  refine ⟨?_, ?_, ?_⟩
  · have h := ((field_resolution_precedence (fun _ => "envval")
      [("f", "flagval")] ⟨"Foo", false, "FOO", "f", false, false, none⟩).1
      "flagval" (by decide) (by simp [mapLookup])).1
    simpa [mapDelete] using h
  · have h := ((field_resolution_precedence (fun _ => "") []
      ⟨"Bar", false, "BAR", "bar", false, false, some ""⟩).2.2.2.1
      (by simp [mapLookup]) (by simp) rfl "" rfl).1
    simpa using h
  · have h := ((field_resolution_precedence (fun _ => "") []
      ⟨"Bar", false, "BAR", "bar", false, false, some ""⟩).2.2.2.1
      (by simp [mapLookup]) (by simp) rfl "" rfl).2
    simpa using h

/-! ## Unknown-flag aggregation (C6) -/

lemma mapLookup_append_fresh {α β : Type} [DecidableEq α]
    (fm : List (α × β)) (t k : α) (v : β) (h : t ≠ k) :
    mapLookup (fm ++ [(k, v)]) t = mapLookup fm t := by
  have hkt : ¬ k = t := fun hh => h hh.symm
  induction fm with
  | nil => simp [mapLookup, hkt]
  | cons p fm ih =>
    by_cases hp : p.1 = t
    · simp [mapLookup, hp]
    · simp [mapLookup, hp, ih]

lemma mapDelete_append {α β : Type} [DecidableEq α]
    (fm : List (α × β)) (t k : α) (v : β) (h : t ≠ k) :
    mapDelete (fm ++ [(k, v)]) t = mapDelete fm t ++ [(k, v)] := by
  have hkt : ¬ k = t := fun hh => h hh.symm
  simp [mapDelete, List.filter_append, hkt]

lemma mapLookup_eq_none_iff {α β : Type} [DecidableEq α]
    (fm : List (α × β)) (k : α) :
    mapLookup fm k = none ↔ k ∉ fm.map Prod.fst := by
  induction fm with
  | nil => simp [mapLookup]
  | cons p fm ih =>
    by_cases hp : p.1 = k
    · simp [mapLookup, hp]
    · have hkp : ¬ k = p.1 := fun hh => hp hh.symm
      simp [mapLookup, hp, ih, hkp]

lemma popValue_append_fresh (getEnv : String → String) (fm : FlagMapS)
    (tag : ParsedTag) (k : String) (v : String) (h : tag.flagName ≠ k) :
    popValue getEnv (fm ++ [(k, v)]) tag
      = ((popValue getEnv fm tag).1 ++ [(k, v)],
          (popValue getEnv fm tag).2) := by
  rw [popValue, popValue]
  by_cases hf : tag.flagName = ""
  · simp only [if_pos hf]
  · simp only [if_neg hf, mapLookup_append_fresh fm tag.flagName k v h]
    cases hl : mapLookup fm tag.flagName with
    | none => simp
    | some val => simp [mapDelete_append fm tag.flagName k v h]

lemma runField_append_fresh (getEnv : String → String)
    (setErr : ParsedTag → String → Option String) (cd : CmdData)
    (tag : ParsedTag) (k : String) (v : String) (h : tag.flagName ≠ k) :
    runField getEnv setErr { cd with flagMap := cd.flagMap ++ [(k, v)] } tag
      = (let r := runField getEnv setErr cd tag
         ({ r.1 with flagMap := r.1.flagMap ++ [(k, v)] }, r.2.1, r.2.2)) := by
  rw [runField, runField]
  by_cases hr : tag.remaining
  · by_cases hu : cd.usedRemaining <;> simp [hr, hu]
  · simp only [hr, if_false, Bool.false_eq_true]
    rw [popValue_append_fresh getEnv cd.flagMap tag k v h]
    cases hpv : popValue getEnv cd.flagMap tag with
    | mk fm' res =>
      cases res with
      | error e => rfl
      | ok o =>
        cases o with
        | none => rfl
        | some s =>
          dsimp only
          cases hs : setErr tag s <;> rfl

lemma runStruct_append_fresh (getEnv : String → String)
    (setErr : ParsedTag → String → Option String) (tags : List ParsedTag)
    (cd : CmdData) (k : String) (v : String)
    (h : ∀ t ∈ tags, t.flagName ≠ k) :
    runStruct getEnv setErr { cd with flagMap := cd.flagMap ++ [(k, v)] } tags
      = (let r := runStruct getEnv setErr cd tags
         ({ r.1 with flagMap := r.1.flagMap ++ [(k, v)] }, r.2)) := by
  induction tags generalizing cd with
  | nil => rfl
  | cons tag tags ih =>
    have htag : tag.flagName ≠ k := h tag (by simp)
    have htags : ∀ t ∈ tags, t.flagName ≠ k := fun t ht => h t (by simp [ht])
    rw [runStruct, runStruct,
      runField_append_fresh getEnv setErr cd tag k v htag]
    cases hrf : runField getEnv setErr cd tag with
    | mk cd' rest =>
      cases rest with
      | mk errOpt w =>
        simp only []
        rw [ih cd' htags]
        cases hrs : runStruct getEnv setErr cd' tags with
        | mk cd'' errs =>
          cases errOpt <;> rfl

lemma runStructValues_append_fresh (getEnv : String → String)
    (setErr : ParsedTag → String → Option String) (tags : List ParsedTag)
    (cd : CmdData) (k : String) (v : String)
    (h : ∀ t ∈ tags, t.flagName ≠ k) :
    runStructValues getEnv setErr
        { cd with flagMap := cd.flagMap ++ [(k, v)] } tags
      = runStructValues getEnv setErr cd tags := by
  induction tags generalizing cd with
  | nil => rfl
  | cons tag tags ih =>
    have htag : tag.flagName ≠ k := h tag (by simp)
    have htags : ∀ t ∈ tags, t.flagName ≠ k := fun t ht => h t (by simp [ht])
    rw [runStructValues, runStructValues,
      runField_append_fresh getEnv setErr cd tag k v htag]
    cases hrf : runField getEnv setErr cd tag with
    | mk cd' rest =>
      simp only []
      rw [ih cd' htags]

lemma popValue_fst_sublist (getEnv : String → String) (fm : FlagMapS)
    (tag : ParsedTag) : (popValue getEnv fm tag).1.Sublist fm := by
  rw [popValue]
  cases hsel : (if tag.flagName = "" then none else mapLookup fm tag.flagName)
  · exact List.Sublist.refl fm
  · exact List.filter_sublist fm

lemma runField_flagMap_sublist (getEnv : String → String)
    (setErr : ParsedTag → String → Option String) (cd : CmdData)
    (tag : ParsedTag) :
    (runField getEnv setErr cd tag).1.flagMap.Sublist cd.flagMap := by
  rw [runField]
  by_cases hr : tag.remaining
  · by_cases hu : cd.usedRemaining <;> simp [hr, hu]
  · simp only [hr, if_false, Bool.false_eq_true]
    have hsub := popValue_fst_sublist getEnv cd.flagMap tag
    cases hpv : popValue getEnv cd.flagMap tag with
    | mk fm' res =>
      rw [hpv] at hsub
      cases res with
      | error e => exact hsub
      | ok o =>
        cases o with
        | none => exact hsub
        | some s =>
          dsimp only
          cases hs : setErr tag s <;> exact hsub

lemma runStruct_flagMap_sublist (getEnv : String → String)
    (setErr : ParsedTag → String → Option String) (tags : List ParsedTag)
    (cd : CmdData) :
    (runStruct getEnv setErr cd tags).1.flagMap.Sublist cd.flagMap := by
  induction tags generalizing cd with
  | nil => exact List.Sublist.refl _
  | cons tag tags ih =>
    rw [runStruct]
    have h1 := runField_flagMap_sublist getEnv setErr cd tag
    cases hrf : runField getEnv setErr cd tag with
    | mk cd' rest =>
      rw [hrf] at h1
      cases rest with
      | mk errOpt w =>
        dsimp only
        have h2 := ih cd'
        cases hrs : runStruct getEnv setErr cd' tags with
        | mk cd'' errs =>
          rw [hrs] at h2
          cases errOpt <;> exact List.Sublist.trans h2 h1

lemma runStruct_errs_flags (getEnv : String → String)
    (setErr : ParsedTag → String → Option String) (tags : List ParsedTag)
    (cd : CmdData) :
    ∀ e ∈ (runStruct getEnv setErr cd tags).2, ∃ t ∈ tags, e.flag = t.flagName := by
  induction tags generalizing cd with
  | nil => simp [runStruct]
  | cons tag tags ih =>
    intro e he
    rw [runStruct] at he
    cases hrf : runField getEnv setErr cd tag with
    | mk cd' rest =>
      rw [hrf] at he
      cases rest with
      | mk errOpt w =>
        dsimp only at he
        cases hrs : runStruct getEnv setErr cd' tags with
        | mk cd'' errs =>
          rw [hrs] at he
          dsimp only at he
          have hih := ih cd'
          rw [hrs] at hih
          cases errOpt with
          | none =>
            obtain ⟨t, ht, hte⟩ := hih e he
            exact ⟨t, by simp [ht], hte⟩
          | some msg =>
            simp only [List.mem_cons] at he
            rcases he with rfl | he
            · exact ⟨tag, by simp, rfl⟩
            · obtain ⟨t, ht, hte⟩ := hih e he
              exact ⟨t, by simp [ht], hte⟩

/-- C6.  Adding to the flag map an entry `(k, v)` claimed by no field
binding changes nothing about the fields — same per-field errors, same
resolved values — and adds exactly one "unknown flag" error for `k` to the
aggregate, appended alongside the field errors; in the extended run the
aggregate contains that error exactly once. -/
theorem unknown_flags_one_error_each (getEnv : String → String)
    (setErr : ParsedTag → String → Option String) (tags : List ParsedTag)
    (fm : FlagMapS) (rem : List String) (k v : String)
    (hk : ∀ t ∈ tags, t.flagName ≠ k) (hfresh : mapLookup fm k = none) :
    parseCombinedErrs getEnv setErr tags (fm ++ [(k, v)]) rem
      = parseCombinedErrs getEnv setErr tags fm rem ++ [unknownFlagErr k] ∧
    runStructValues getEnv setErr ⟨fm ++ [(k, v)], rem, false⟩ tags
      = runStructValues getEnv setErr ⟨fm, rem, false⟩ tags ∧
    (runStruct getEnv setErr ⟨fm ++ [(k, v)], rem, false⟩ tags).2
      = (runStruct getEnv setErr ⟨fm, rem, false⟩ tags).2 ∧
    (parseCombinedErrs getEnv setErr tags (fm ++ [(k, v)]) rem).count
        (unknownFlagErr k) = 1 := by
  have hfr := runStruct_append_fresh getEnv setErr tags ⟨fm, rem, false⟩ k v hk
  have hvals := runStructValues_append_fresh getEnv setErr tags
    ⟨fm, rem, false⟩ k v hk
  have hparse : parseCombinedErrs getEnv setErr tags (fm ++ [(k, v)]) rem
      = parseCombinedErrs getEnv setErr tags fm rem ++ [unknownFlagErr k] := by
    rw [parseCombinedErrs, parseCombinedErrs]
    have : (⟨fm ++ [(k, v)], rem, false⟩ : CmdData)
        = { (⟨fm, rem, false⟩ : CmdData) with
              flagMap := (⟨fm, rem, false⟩ : CmdData).flagMap ++ [(k, v)] } := rfl
    rw [this, hfr]
    cases hrs : runStruct getEnv setErr ⟨fm, rem, false⟩ tags with
    | mk cd' errs =>
      simp [List.append_assoc, unknownFlagErr]
  refine ⟨hparse, hvals, ?_, ?_⟩
  · rw [show (⟨fm ++ [(k, v)], rem, false⟩ : CmdData)
        = { (⟨fm, rem, false⟩ : CmdData) with
              flagMap := (⟨fm, rem, false⟩ : CmdData).flagMap ++ [(k, v)] }
        from rfl, hfr]
  · rw [hparse, List.count_append]
    have hzero : (parseCombinedErrs getEnv setErr tags fm rem).count
        (unknownFlagErr k) = 0 := by
      rw [List.count_eq_zero]
      intro hmem
      rw [parseCombinedErrs] at hmem
      cases hrs : runStruct getEnv setErr ⟨fm, rem, false⟩ tags with
      | mk cd' errs =>
        rw [hrs] at hmem
        simp only [List.mem_append] at hmem
        rcases hmem with hmem | hmem
        · have := runStruct_errs_flags getEnv setErr tags ⟨fm, rem, false⟩
          rw [hrs] at this
          obtain ⟨t, ht, hte⟩ := this _ hmem
          exact hk t ht (by simpa [unknownFlagErr] using hte.symm)
        · rw [List.mem_map] at hmem
          obtain ⟨p, hp, hpe⟩ := hmem
          have hpk : p.1 = k := by
            simpa [unknownFlagErr, ParamErrorL.mk.injEq] using hpe
          have hsub := runStruct_flagMap_sublist getEnv setErr tags
            ⟨fm, rem, false⟩
          rw [hrs] at hsub
          have hpfm : p ∈ fm := hsub.mem hp
          have : k ∈ fm.map Prod.fst :=
            List.mem_map.mpr ⟨p, hpfm, hpk⟩
          exact (mapLookup_eq_none_iff fm k).mp hfresh this
    simp [hzero]

/-- Witness for C6: one field claiming flag `f`, a flag map carrying `f` and
an unclaimed flag `x`; the aggregate gains exactly the one unknown-flag
error for `x` and the field's resolution is unchanged. -/
theorem unknown_flags_one_error_each_witness :
    parseCombinedErrs (fun _ => "") (fun _ _ => none)
        [⟨"Foo", false, "", "f", false, false, none⟩]
        ([("f", "1")] ++ [("x", "2")]) []
      = parseCombinedErrs (fun _ => "") (fun _ _ => none)
          [⟨"Foo", false, "", "f", false, false, none⟩] [("f", "1")] []
        ++ [unknownFlagErr "x"] ∧
    (parseCombinedErrs (fun _ => "") (fun _ _ => none)
        [⟨"Foo", false, "", "f", false, false, none⟩]
        ([("f", "1")] ++ [("x", "2")]) []).count (unknownFlagErr "x") = 1 := by
  have h := unknown_flags_one_error_each (fun _ => "") (fun _ _ => none)
    [⟨"Foo", false, "", "f", false, false, none⟩] [("f", "1")] [] "x" "2"
    (by intro t ht; simp at ht; simp [ht]) (by simp [mapLookup])
  exact ⟨h.1, h.2.2.2⟩

/-! ## Theorems about positional-argument distribution -/

/-- C4.  Evaluation of the second `ParseCombined` variant's distribution
step at a run with an `arg0` binding, a declared remaining-args field, and
tokenizer remainder `["a", "b"]`: the `arg0` field receives `"a"` and the
unclaimed arguments are exactly `["b"]`, yet the remaining-args field is
assigned the whole remainder `["a", "b"]` — the source sets it from
`remainingArgs`, not from the `thenRemainingArgs` it just computed (and uses
only for its length). -/
theorem remaining_field_receives_all_args :
    distributeArgs (fun _ _ => none) [0] true ["a", "b"]
      = ([(0, "a")], some ["a", "b"], []) ∧
    unclaimedArgs [0] ["a", "b"] = ["b"] ∧
    distributeArgs (fun _ _ => none) [0] true ["a", "b"]
      ≠ ([(0, "a")], some (unclaimedArgs [0] ["a", "b"]), []) := by decide

end Runner
